import Mathlib

/-!
Shallow embedding of the streaming-playback coordinator of the Lyria-Pro-2
repository (files `LiveMusicHelper.js`, `MidiDispatcher.js`, `throttle.js`,
and the `PromptDjMidi` component's save/load handlers), together with proofs
of the spec's claims about them.

Modelling conventions:
* JS numbers that carry audio-clock times, buffer durations and prompt
  weights become `Rat` (exact arithmetic; the code performs only additions
  and comparisons on them).
* `Date.now()` timestamps become `Int` milliseconds; the throttle's initial
  `lastCall = -Infinity` becomes `Option Int` with `none` standing for
  negative infinity.
* A JS `Map` becomes an insertion-ordered association list
  `List (String × Prompt)`; a JS `Set` of strings becomes an
  insertion-ordered duplicate-free `List String`.
* Side effects that leave the coordinator (dispatched `CustomEvent`s) are
  logged in an `events` field.  The Web-Audio gain-ramp calls and the
  backend directives (`session.play/pause/stop`) mutate objects outside the
  coordinator's own state and are not needed by any claim, so they are not
  logged; everything the claims mention (playback state, scheduling clock,
  session handles, prompts, filtered set, dispatched events, scheduled
  buffers) is modelled.
-/

namespace LyriaPro

/-- The four playback states of `LiveMusicHelper.playbackState`. -/
inductive PlaybackState where
  | stopped
  | loading
  | playing
  | paused
deriving DecidableEq, Repr

/-- One weighted prompt, as produced by `buildInitialPrompts` in `index.js`
and handled by `PromptDjMidi`: `{promptId, text, weight, cc, color}`. -/
structure Prompt where
  promptId : String
  text : String
  weight : Rat
  cc : Nat
  color : String
deriving DecidableEq, Repr

/-- Events the coordinator dispatches (`dispatchEvent(new CustomEvent(...))`
in `LiveMusicHelper.js`). -/
inductive HelperEvent where
  | errorEvt (msg : String)
  | stateChanged (s : PlaybackState)
  | filteredPromptEvt (text : String)
deriving DecidableEq, Repr

/-- JS `Set` insertion via `new Set([...old, text])`: keeps insertion order,
adds the element only if it is not already present. -/
def setAdd (l : List String) (t : String) : List String :=
  if l.contains t then l else l ++ [t]

/-- The coordinator state of `LiveMusicHelper` (constructor fields that the
spec's claims concern).  `session`/`sessionPromise` are opaque handles,
modelled as connection identifiers (`none` = JS `null`). -/
structure HelperState where
  session : Option Nat
  sessionPromise : Option Nat
  connectionError : Bool
  filteredPrompts : List String
  nextStartTime : Rat
  bufferTime : Rat
  playbackState : PlaybackState
  prompts : List (String × Prompt)
  events : List HelperEvent
deriving DecidableEq, Repr

/-- The state built by the `LiveMusicHelper` constructor. -/
def initialHelperState : HelperState :=
  { session := none
    sessionPromise := none
    connectionError := true
    filteredPrompts := []
    nextStartTime := 0
    bufferTime := 2
    playbackState := .stopped
    prompts := []
    events := [] }

/-- `setPlaybackState(state)`: store the state and dispatch
`playback-state-changed`. -/
def setPlaybackState (s : HelperState) (st : PlaybackState) : HelperState :=
  { s with playbackState := st, events := s.events ++ [.stateChanged st] }

/-- Result of one `processAudioChunks` invocation: the new coordinator
state, the `source.start(t)` call it issued (scheduled start time and the
buffer's duration), if any, and whether the one-shot `setTimeout` that
later flips the state to `playing` was armed. -/
structure ChunkResult where
  state : HelperState
  scheduled : Option (Rat × Rat)
  timerSet : Bool
deriving DecidableEq, Repr

/-- `LiveMusicHelper.processAudioChunks`, per incoming chunk.  `now` is
`audioContext.currentTime` at the moment the chunk is handled and
`duration` is the decoded `audioBuffer.duration`.  Decoding itself
(`decodeAudioData(decode(...))`) is opaque codec work outside the spec's
scope; the claims only concern the scheduling that follows it.
Faithful to the source order: early return when paused/stopped, priming of
an unprimed clock (with the `setTimeout` to `playing`), the underrun check,
then `source.start(nextStartTime)` and the advance by the duration. -/
def processAudioChunks (s : HelperState) (now duration : Rat) : ChunkResult :=
  if s.playbackState = .paused ∨ s.playbackState = .stopped then
    ⟨s, none, false⟩
  else
    let primed := s.nextStartTime = 0
    let s1 : HelperState :=
      if primed then { s with nextStartTime := now + s.bufferTime } else s
    if s1.nextStartTime < now then
      ⟨{ setPlaybackState s1 .loading with nextStartTime := 0 }, none, primed⟩
    else
      ⟨{ s1 with nextStartTime := s1.nextStartTime + duration },
        some (s1.nextStartTime, duration), primed⟩

/-- C1: in the underrun branch the playback state becomes `loading`, the
clock is un-primed and no buffer is scheduled. -/
theorem c1_underrun_drops_chunk (s : HelperState) (now duration : Rat)
    (hp : s.playbackState ≠ .paused) (hs : s.playbackState ≠ .stopped)
    (hpr : s.nextStartTime ≠ 0) (hlt : s.nextStartTime < now) :
    (processAudioChunks s now duration).state.playbackState = .loading ∧
    (processAudioChunks s now duration).state.nextStartTime = 0 ∧
    (processAudioChunks s now duration).scheduled = none ∧
    (processAudioChunks s now duration).state.events
      = s.events ++ [.stateChanged .loading] := by
  unfold processAudioChunks
  rw [if_neg (by tauto)]
  simp [if_neg hpr, if_pos hlt, setPlaybackState]

/-- Witness for C1 at a concrete starved state. -/
theorem c1_underrun_drops_chunk_witness :
    let s : HelperState := { initialHelperState with
      playbackState := .playing, nextStartTime := 5 }
    (processAudioChunks s 7 (1/2)).state.playbackState = .loading ∧
    (processAudioChunks s 7 (1/2)).state.nextStartTime = 0 ∧
    (processAudioChunks s 7 (1/2)).scheduled = none ∧
    (processAudioChunks s 7 (1/2)).state.events
      = s.events ++ [.stateChanged .loading] :=
  c1_underrun_drops_chunk _ 7 (1/2) (by decide) (by decide) (by decide)
    (by norm_num)

/-- Characterisation of a scheduling (non-underrun, non-skipped) step of
`processAudioChunks`: the duration scheduled is the buffer's duration, the
start time is the (possibly just-primed) `nextStartTime`, the start time is
not in the past, and the only state change is the advance of
`nextStartTime` to just after the scheduled buffer. -/
theorem processAudioChunks_scheduled {s : HelperState} {now d st dd : Rat}
    (h : (processAudioChunks s now d).scheduled = some (st, dd)) :
    dd = d ∧
    st = (if s.nextStartTime = 0 then now + s.bufferTime else s.nextStartTime) ∧
    now ≤ st ∧
    (processAudioChunks s now d).state = { s with nextStartTime := st + d } := by
  by_cases h1 : s.playbackState = .paused ∨ s.playbackState = .stopped
  · simp [processAudioChunks, h1] at h
  · by_cases h2 : s.nextStartTime = 0
    · by_cases h3 : now + s.bufferTime < now
      · simp [processAudioChunks, h1, h2, h3] at h
      · simp [processAudioChunks, h1, h2, h3] at h ⊢
        obtain ⟨hst, hdd⟩ := h
        subst hst hdd
        push_neg at h3
        exact ⟨rfl, rfl, h3, rfl⟩
    · by_cases h3 : s.nextStartTime < now
      · simp [processAudioChunks, h1, h2, h3] at h
      · simp [processAudioChunks, h1, h2, h3] at h ⊢
        obtain ⟨hst, hdd⟩ := h
        subst hst hdd
        push_neg at h3
        exact ⟨rfl, rfl, h3, rfl⟩

/-- Serialized processing of a sequence of chunks, as the single backend
connection delivers them in arrival order: each element is
(`audioContext.currentTime` at handling time, decoded buffer duration).
Returns the final state and the list of issued `source.start` calls
(scheduled start time, duration), in order. -/
def runChunks (s : HelperState) : List (Rat × Rat) → HelperState × List (Rat × Rat)
  | [] => (s, [])
  | c :: rest =>
      let r := processAudioChunks s c.1 c.2
      ((runChunks r.state rest).1, r.scheduled.toList ++ (runChunks r.state rest).2)

/-- `true` when every chunk of the sequence takes the scheduling branch
(no step is skipped as paused/stopped and none hits the underrun branch). -/
def allScheduled (s : HelperState) : List (Rat × Rat) → Bool
  | [] => true
  | c :: rest =>
      (processAudioChunks s c.1 c.2).scheduled.isSome &&
      allScheduled (processAudioChunks s c.1 c.2).state rest

/-- When the clock is primed, the first buffer scheduled by a fully
scheduling run starts exactly at the current `nextStartTime`. -/
theorem runChunks_head_start (s : HelperState) (chunks : List (Rat × Rat))
    (hns : s.nextStartTime ≠ 0) (hall : allScheduled s chunks = true) :
    ∀ p ∈ ((runChunks s chunks).2).head?, p.1 = s.nextStartTime := by
  cases chunks with
  | nil => simp [runChunks]
  | cons c rest =>
    simp only [allScheduled, Bool.and_eq_true, Option.isSome_iff_exists] at hall
    obtain ⟨⟨⟨st, dd⟩, hsch⟩, _⟩ := hall
    obtain ⟨_, hst, _, _⟩ := processAudioChunks_scheduled hsch
    intro p hp
    simp only [runChunks, hsch, Option.toList_some, List.cons_append,
      List.head?_cons, Option.mem_def, Option.some.injEq] at hp
    rw [← hp, hst, if_neg hns]

/-- Fully scheduling runs preserve durations chunk-for-chunk and produce a
gap-free back-to-back timeline: every scheduled start equals the previous
scheduled start plus the previous buffer's duration. -/
theorem runChunks_chain (chunks : List (Rat × Rat)) :
    ∀ s : HelperState, (∀ p ∈ chunks, 0 ≤ p.1 ∧ 0 < p.2) →
    allScheduled s chunks = true →
    (runChunks s chunks).2.map Prod.snd = chunks.map Prod.snd ∧
    List.Chain' (fun a b : Rat × Rat => b.1 = a.1 + a.2) (runChunks s chunks).2 := by
  induction chunks with
  | nil => intro s _ _; simp [runChunks]
  | cons c rest ih =>
    intro s hpos hall
    simp only [allScheduled, Bool.and_eq_true, Option.isSome_iff_exists] at hall
    obtain ⟨⟨⟨st, dd⟩, hsch⟩, hall'⟩ := hall
    obtain ⟨hdd, hst, hnow, hstate⟩ := processAudioChunks_scheduled hsch
    have hposc := hpos c (List.mem_cons_self c rest)
    have hrest := ih (processAudioChunks s c.1 c.2).state
      (fun p hp => hpos p (List.mem_cons_of_mem c hp)) hall'
    have hns' : (processAudioChunks s c.1 c.2).state.nextStartTime ≠ 0 := by
      rw [hstate]
      show st + c.2 ≠ 0
      have : (0 : Rat) < st + c.2 := by
        have h0 : (0 : Rat) ≤ st := le_trans hposc.1 hnow
        linarith [hposc.2]
      linarith
    constructor
    · simp only [runChunks, hsch, Option.toList_some, List.cons_append,
        List.map_cons, List.nil_append]
      rw [hrest.1, hdd]
    · simp only [runChunks, hsch, Option.toList_some, List.cons_append,
        List.nil_append]
      rw [List.chain'_cons']
      refine ⟨?_, hrest.2⟩
      intro p hp
      have := runChunks_head_start (processAudioChunks s c.1 c.2).state rest hns' hall' p hp
      rw [this, hstate]
      show st + c.2 = st + dd
      rw [hdd]

/-- C2: while playing with a primed clock, a run of chunks in which no step
underruns schedules every chunk, in order, with the first start at the
current `nextStartTime`, each buffer keeping its own duration, and
consecutive start times satisfying `start[i+1] = start[i] + duration[i]`
(back-to-back: zero gap, zero overlap, non-decreasing). -/
theorem c2_backtoback_schedule (s : HelperState) (chunks : List (Rat × Rat))
    (hplay : s.playbackState = .playing) (hns : s.nextStartTime ≠ 0)
    (hpos : ∀ p ∈ chunks, 0 ≤ p.1 ∧ 0 < p.2)
    (hall : allScheduled s chunks = true) :
    (runChunks s chunks).2.length = chunks.length ∧
    (∀ p ∈ ((runChunks s chunks).2).head?, p.1 = s.nextStartTime) ∧
    (runChunks s chunks).2.map Prod.snd = chunks.map Prod.snd ∧
    List.Chain' (fun a b : Rat × Rat => b.1 = a.1 + a.2) (runChunks s chunks).2 := by
  obtain ⟨hmap, hchain⟩ := runChunks_chain chunks s hpos hall
  refine ⟨?_, runChunks_head_start s chunks hns hall, hmap, hchain⟩
  have := congrArg List.length hmap
  simpa using this

/-- Witness for C2: a playing state with `nextStartTime = 3` fed three
chunks of durations 1, 1/2 and 2 at clock times 1, 2 and 3. -/
theorem c2_backtoback_schedule_witness :
    let s : HelperState := { initialHelperState with
      playbackState := .playing, nextStartTime := 3 }
    let chunks : List (Rat × Rat) := [(1, 1), (2, 1/2), (3, 2)]
    (runChunks s chunks).2.length = chunks.length ∧
    (∀ p ∈ ((runChunks s chunks).2).head?, p.1 = s.nextStartTime) ∧
    (runChunks s chunks).2.map Prod.snd = chunks.map Prod.snd ∧
    List.Chain' (fun a b : Rat × Rat => b.1 = a.1 + a.2) (runChunks s chunks).2 :=
  c2_backtoback_schedule _ _ (by decide) (by norm_num [initialHelperState])
    (by norm_num) (by
      have hf : ¬(PlaybackState.playing = PlaybackState.paused ∨
          PlaybackState.playing = PlaybackState.stopped) := by decide
      simp [allScheduled, processAudioChunks, initialHelperState, setPlaybackState, hf]
      norm_num
      rw [if_neg hf]
      rfl)

/-! ### `throttle.js` -/

/-- The closure state of the wrapper returned by `throttle(func, delay)`:
`lastCall` starts at `-Infinity` (modelled as `none`) and `lastResult`
starts `undefined` (modelled as `none`). -/
structure ThrottleState (α : Type) where
  lastCall : Option Int
  lastResult : Option α
deriving DecidableEq, Repr

/-- The freshly created closure state of `throttle`. -/
def throttleInit {α : Type} : ThrottleState α := ⟨none, none⟩

/-- One invocation of the throttle wrapper at time `now` (`Date.now()`)
with argument `arg`.  The wrapped async `func` is modelled by the pure
result `f arg` it computes.  Returns the updated closure state and the
pair (did this invocation execute `func`?, the value the wrapper
returned).  `now - lastCall >= delay` with `lastCall = -Infinity` holds for
every finite `now` and `delay`, hence the `none ⇒ true` branch. -/
def throttleStep {α β : Type} (f : β → α) (delay : Int)
    (st : ThrottleState α) (now : Int) (arg : β) :
    ThrottleState α × (Bool × Option α) :=
  let executes :=
    match st.lastCall with
    | none => true
    | some lc => decide (delay ≤ now - lc)
  if executes then
    (⟨some now, some (f arg)⟩, (true, some (f arg)))
  else (st, (false, st.lastResult))

/-- A sequence of timestamped invocations of one throttle wrapper: final
closure state plus, per invocation, whether `func` ran and what the
wrapper returned. -/
def throttleRun {α β : Type} (f : β → α) (delay : Int) :
    ThrottleState α → List (Int × β) → ThrottleState α × List (Bool × Option α)
  | st, [] => (st, [])
  | st, c :: rest =>
      let r := throttleStep f delay st c.1 c.2
      ((throttleRun f delay r.1 rest).1, r.2 :: (throttleRun f delay r.1 rest).2)

/-- Timestamp of the most recent executed invocation in the history prefix
`pre` (invocations zipped with their outcomes), falling back to the
starting state's `lastCall`. -/
def lastExecTime {α β : Type} (st : ThrottleState α)
    (pre : List ((Int × β) × (Bool × Option α))) : Option Int :=
  pre.foldl (fun acc q => if q.2.1 then some q.1.1 else acc) st.lastCall

/-- Result computed by the most recent executed invocation in the history
prefix `pre`, falling back to the starting state's `lastResult`. -/
def lastExecResult {α β : Type} (f : β → α) (st : ThrottleState α)
    (pre : List ((Int × β) × (Bool × Option α))) : Option α :=
  pre.foldl (fun acc q => if q.2.1 then some (f q.1.2) else acc) st.lastResult

theorem throttleRun_length {α β : Type} (f : β → α) (delay : Int) :
    ∀ (calls : List (Int × β)) (st : ThrottleState α),
    ((throttleRun f delay st calls).2).length = calls.length := by
  intro calls
  induction calls with
  | nil => intro st; rfl
  | cons c rest ih => intro st; simp [throttleRun, ih]

/-- After one invocation, the closure state is exactly the history fold of
that invocation's outcome. -/
theorem throttleStep_state {α β : Type} (f : β → α) (delay : Int)
    (st : ThrottleState α) (now : Int) (arg : β) :
    (throttleStep f delay st now arg).1.lastCall
      = (if (throttleStep f delay st now arg).2.1 then some now else st.lastCall) ∧
    (throttleStep f delay st now arg).1.lastResult
      = (if (throttleStep f delay st now arg).2.1 then some (f arg) else st.lastResult) := by
  unfold throttleStep
  cases h : st.lastCall with
  | none => simp
  | some lc =>
    by_cases hd : delay ≤ now - lc <;> simp [h, hd]

/-- Full characterisation of every invocation of a throttle run in terms of
the history of earlier invocations. -/
theorem throttleRun_spec {α β : Type} (f : β → α) (delay : Int) :
    ∀ (calls : List (Int × β)) (st : ThrottleState α) (i : Nat)
      (hi : i < calls.length)
      (hi' : i < ((throttleRun f delay st calls).2).length),
    ((throttleRun f delay st calls).2).get ⟨i, hi'⟩ =
      (let pre := (calls.zip (throttleRun f delay st calls).2).take i
       let executes :=
         match lastExecTime st pre with
         | none => true
         | some lc => decide (delay ≤ (calls.get ⟨i, hi⟩).1 - lc)
       (executes,
        if executes then some (f (calls.get ⟨i, hi⟩).2)
        else lastExecResult f st pre)) := by
  intro calls
  induction calls with
  | nil => intro st i hi; exact absurd hi (by simp)
  | cons c rest ih =>
    intro st i hi hi'
    match i with
    | 0 =>
      simp only [throttleRun, List.get, List.take_zero, lastExecTime,
        lastExecResult, List.foldl_nil]
      unfold throttleStep
      cases h : st.lastCall <;> simp [h] <;> split <;> simp_all
    | Nat.succ j =>
      have hj : j < rest.length := by simpa using hi
      have hj' : j < ((throttleRun f delay
          (throttleStep f delay st c.1 c.2).1 rest).2).length := by
        rw [throttleRun_length]; exact hj
      have hrec := ih (throttleStep f delay st c.1 c.2).1 j hj hj'
      simp only [throttleRun, List.get, List.zip_cons_cons, List.take_succ_cons]
      rw [hrec]
      have hstep := throttleStep_state f delay st c.1 c.2
      have hT : lastExecTime st
            ((c, (throttleStep f delay st c.1 c.2).2) ::
              (rest.zip (throttleRun f delay (throttleStep f delay st c.1 c.2).1 rest).2).take j)
          = lastExecTime (throttleStep f delay st c.1 c.2).1
              ((rest.zip (throttleRun f delay (throttleStep f delay st c.1 c.2).1 rest).2).take j) := by
        simp only [lastExecTime, List.foldl_cons]
        rw [hstep.1]
      have hR : lastExecResult f st
            ((c, (throttleStep f delay st c.1 c.2).2) ::
              (rest.zip (throttleRun f delay (throttleStep f delay st c.1 c.2).1 rest).2).take j)
          = lastExecResult f (throttleStep f delay st c.1 c.2).1
              ((rest.zip (throttleRun f delay (throttleStep f delay st c.1 c.2).1 rest).2).take j) := by
        simp only [lastExecResult, List.foldl_cons]
        rw [hstep.2]
      rw [hT, hR]

/-- C3: over any timestamped invocation sequence of `throttle(f, delay)`
from a fresh wrapper, invocation `i` executes `f` exactly when at least
`delay` milliseconds have elapsed since the most recent executed
invocation (always, if none was executed yet); an executing invocation
returns `f`'s freshly computed result, and a non-executing invocation
returns the result computed by the most recent executed invocation. -/
theorem c3_throttle_contract {α β : Type} (f : β → α) (delay : Int)
    (calls : List (Int × β)) (i : Nat) (hi : i < calls.length)
    (hi' : i < ((throttleRun f delay throttleInit calls).2).length) :
    ((((throttleRun f delay throttleInit calls).2).get ⟨i, hi'⟩).1 = true ↔
      (∀ lc, lastExecTime throttleInit
          ((calls.zip (throttleRun f delay throttleInit calls).2).take i) = some lc →
        delay ≤ (calls.get ⟨i, hi⟩).1 - lc)) ∧
    ((((throttleRun f delay throttleInit calls).2).get ⟨i, hi'⟩).1 = true →
      (((throttleRun f delay throttleInit calls).2).get ⟨i, hi'⟩).2
        = some (f (calls.get ⟨i, hi⟩).2)) ∧
    ((((throttleRun f delay throttleInit calls).2).get ⟨i, hi'⟩).1 = false →
      (((throttleRun f delay throttleInit calls).2).get ⟨i, hi'⟩).2
        = lastExecResult f throttleInit
            ((calls.zip (throttleRun f delay throttleInit calls).2).take i)) := by
  rw [throttleRun_spec f delay calls throttleInit i hi hi']
  cases h : lastExecTime throttleInit
      ((calls.zip (throttleRun f delay throttleInit calls).2).take i) with
  | none => simp [h]
  | some lc =>
    simp only [h]
    by_cases hd : delay ≤ (calls.get ⟨i, hi⟩).1 - lc <;> simp [hd] <;>
      exact ⟨fun h1 h2 => absurd h2 (not_lt.mpr h1),
             fun h1 h2 => absurd h1 (not_lt.mpr h2)⟩

/-- Witness for C3: `f = (· + 1)` throttled at 200ms, three calls at times
0, 100 and 250; position 1 (the skipped middle call). -/
theorem c3_throttle_contract_witness :
    let f : Int → Int := (· + 1)
    let calls : List (Int × Int) := [(0, 10), (100, 20), (250, 30)]
    ((((throttleRun f 200 throttleInit calls).2).get ⟨1, by decide⟩).1 = true ↔
      (∀ lc, lastExecTime throttleInit
          ((calls.zip (throttleRun f 200 throttleInit calls).2).take 1) = some lc →
        200 ≤ (calls.get ⟨1, by decide⟩).1 - lc)) ∧
    ((((throttleRun f 200 throttleInit calls).2).get ⟨1, by decide⟩).1 = true →
      (((throttleRun f 200 throttleInit calls).2).get ⟨1, by decide⟩).2
        = some (f (calls.get ⟨1, by decide⟩).2)) ∧
    ((((throttleRun f 200 throttleInit calls).2).get ⟨1, by decide⟩).1 = false →
      (((throttleRun f 200 throttleInit calls).2).get ⟨1, by decide⟩).2
        = lastExecResult f throttleInit
            ((calls.zip (throttleRun f 200 throttleInit calls).2).take 1)) :=
  c3_throttle_contract (· + 1) 200 [(0, 10), (100, 20), (250, 30)] 1
    (by decide) (by decide)

/-- C9: the first-ever invocation of a freshly created throttle wrapper
always executes `f` (the `-Infinity` initial timestamp satisfies the
elapsed-time guard for every finite time and delay) and returns `f`'s own
result, not an undefined previous one. -/
theorem c9_first_call_executes {α β : Type} (f : β → α) (delay t : Int)
    (a : β) (rest : List (Int × β)) :
    ((throttleRun f delay throttleInit ((t, a) :: rest)).2).head?
      = some (true, some (f a)) := by
  simp [throttleRun, throttleStep, throttleInit]

/-! ### Session lifecycle and prompt validation (`LiveMusicHelper.js`) -/

/-- `get activePrompts`: the prompt map's values, in insertion order, whose
text is not in the Filtered-Text Set and whose weight is nonzero. -/
def activePrompts (prompts : List (String × Prompt))
    (filtered : List String) : List Prompt :=
  (prompts.map Prod.snd).filter
    (fun p => !(filtered.contains p.text) && p.weight != 0)

/-- `dispatchEvent(new CustomEvent('error', {detail: msg}))`. -/
def dispatchError (s : HelperState) (msg : String) : HelperState :=
  { s with events := s.events ++ [.errorEvt msg] }

/-- `pause()`: pause directive to the backend and the output-gain fade-out
act on external objects; the coordinator's own state transitions to
`paused` and un-primes the scheduling clock (a fresh gain node replaces
the old one, also external). -/
def pauseImpl (s : HelperState) : HelperState :=
  { setPlaybackState s .paused with nextStartTime := 0 }

/-- `stop()`: stop directive and gain fade-out are external; the state
transitions to `stopped`, the clock is un-primed, and both the session
handle and the cached session promise are discarded. -/
def stopImpl (s : HelperState) : HelperState :=
  { setPlaybackState s .stopped with
      nextStartTime := 0, session := none, sessionPromise := none }

/-- `connect()`: starts a fresh backend connection (identified here by
`newId`) and caches it in `sessionPromise`.  It does not touch
`filteredPrompts`. -/
def connectImpl (s : HelperState) (newId : Nat) : HelperState :=
  { s with sessionPromise := some newId }

/-- `getSession()`: reuse the cached `sessionPromise` when present,
otherwise `connect()` a brand-new connection and cache it. -/
def getSession (s : HelperState) (freshId : Nat) : HelperState × Nat :=
  match s.sessionPromise with
  | some id => (s, id)
  | none => (connectImpl s freshId, freshId)

/-- `onmessage` handling of a `filteredPrompt` notice: add the text to the
Filtered-Text Set and dispatch a `filtered-prompt` event. -/
def onFilteredPromptMsg (s : HelperState) (text : String) : HelperState :=
  { s with filteredPrompts := setAdd s.filteredPrompts text,
           events := s.events ++ [.filteredPromptEvt text] }

/-- Outcome of the awaited backend call
`session.setWeightedPrompts({weightedPrompts})`. -/
inductive SendOutcome where
  | ok
  | rejected (msg : String)
deriving DecidableEq, Repr

/-- The async function wrapped by `throttle(..., 200)` as
`setWeightedPrompts`: store the incoming prompt map first, then validate
that at least one active prompt remains (dispatch `error` and `pause()`
otherwise), return if no session is connected, else forward to the backend
and on any rejection dispatch `error` and `pause()`. -/
def setWeightedPromptsImpl (s0 : HelperState)
    (prompts : List (String × Prompt)) (outcome : SendOutcome) : HelperState :=
  let s := { s0 with prompts := prompts }
  if (activePrompts s.prompts s.filteredPrompts).length = 0 then
    pauseImpl (dispatchError s "There needs to be one active prompt to play.")
  else if s.session = none then s
  else match outcome with
    | .ok => s
    | .rejected msg => pauseImpl (dispatchError s msg)

/-- C4: a prompt map in which every prompt has weight 0 or server-filtered
text yields zero active prompts, so `setWeightedPrompts` dispatches an
`error` event and forces `paused` — whatever the session handle is. -/
theorem c4_no_active_prompt_errors (s : HelperState)
    (np : List (String × Prompt)) (outcome : SendOutcome)
    (hzero : ∀ p ∈ np.map Prod.snd,
      p.weight = 0 ∨ s.filteredPrompts.contains p.text) :
    (setWeightedPromptsImpl s np outcome).playbackState = .paused ∧
    HelperEvent.errorEvt "There needs to be one active prompt to play."
      ∈ (setWeightedPromptsImpl s np outcome).events := by
  have hact : activePrompts np s.filteredPrompts = [] := by
    rw [activePrompts, List.filter_eq_nil_iff]
    intro p hp
    rcases hzero p hp with h | h
    · simp [h]
    · simp only [Bool.and_eq_true, Bool.not_eq_true', not_and]
      intro hc
      rw [h] at hc
      exact Bool.noConfusion hc
  unfold setWeightedPromptsImpl
  simp only [hact, List.length_nil, if_pos, reduceIte]
  simp [pauseImpl, dispatchError, setPlaybackState]

/-- Witness for C4: two prompts, one with weight 0 and one whose text is
filtered, with a connected session. -/
theorem c4_no_active_prompt_errors_witness :
    let p1 : Prompt := ⟨"prompt-0", "Bossa Nova", 0, 0, "#9900ff"⟩
    let p2 : Prompt := ⟨"prompt-1", "Chillwave", 1, 1, "#5200ff"⟩
    let s : HelperState := { initialHelperState with
      session := some 1, sessionPromise := some 1,
      filteredPrompts := ["Chillwave"] }
    let np := [("prompt-0", p1), ("prompt-1", p2)]
    (setWeightedPromptsImpl s np .ok).playbackState = .paused ∧
    HelperEvent.errorEvt "There needs to be one active prompt to play."
      ∈ (setWeightedPromptsImpl s np .ok).events :=
  c4_no_active_prompt_errors _ _ .ok (by decide)

/-- C10: `setWeightedPrompts` assigns `this.prompts` before the
active-prompt validation, so on the zero-active error path the stored
prompt map has already been replaced by the incoming one (no rollback). -/
theorem c10_prompts_stored_before_validation (s : HelperState)
    (np : List (String × Prompt)) (outcome : SendOutcome)
    (hzero : ∀ p ∈ np.map Prod.snd,
      p.weight = 0 ∨ s.filteredPrompts.contains p.text) :
    (setWeightedPromptsImpl s np outcome).prompts = np ∧
    (setWeightedPromptsImpl s np outcome).playbackState = .paused := by
  have hact : activePrompts np s.filteredPrompts = [] := by
    rw [activePrompts, List.filter_eq_nil_iff]
    intro p hp
    rcases hzero p hp with h | h
    · simp [h]
    · simp only [Bool.and_eq_true, Bool.not_eq_true', not_and]
      intro hc
      rw [h] at hc
      exact Bool.noConfusion hc
  unfold setWeightedPromptsImpl
  simp only [hact, List.length_nil, if_pos, reduceIte]
  simp [pauseImpl, dispatchError, setPlaybackState]

/-- Witness for C10: a map whose single prompt has weight 0 replaces the
previously stored map even though the call errors and pauses. -/
theorem c10_prompts_stored_before_validation_witness :
    let p1 : Prompt := ⟨"prompt-0", "Funk", 0, 0, "#2af6de"⟩
    let np := [("prompt-0", p1)]
    (setWeightedPromptsImpl initialHelperState np .ok).prompts = np ∧
    (setWeightedPromptsImpl initialHelperState np .ok).playbackState = .paused :=
  c10_prompts_stored_before_validation _ _ .ok (by decide)

/-- C6: `stop()` (the `togglePlayPause` action in state `loading`) discards
the session handle and the cached session promise, un-primes the clock and
transitions to `stopped`; a later `play()`'s `getSession()` then creates a
brand-new connection instead of reusing the old handle. -/
theorem c6_stop_while_loading (s : HelperState)
    (h : s.playbackState = .loading) :
    (stopImpl s).session = none ∧
    (stopImpl s).sessionPromise = none ∧
    (stopImpl s).nextStartTime = 0 ∧
    (stopImpl s).playbackState = .stopped ∧
    ∀ freshId : Nat, (getSession (stopImpl s) freshId).2 = freshId ∧
      (getSession (stopImpl s) freshId).1.sessionPromise = some freshId := by
  refine ⟨rfl, rfl, rfl, rfl, fun freshId => ?_⟩
  simp [getSession, stopImpl, setPlaybackState, connectImpl]

/-- Witness for C6: a loading state with a live session handle 3. -/
theorem c6_stop_while_loading_witness :
    let s : HelperState := { initialHelperState with
      playbackState := .loading, session := some 3, sessionPromise := some 3 }
    (stopImpl s).session = none ∧
    (stopImpl s).sessionPromise = none ∧
    (stopImpl s).nextStartTime = 0 ∧
    (stopImpl s).playbackState = .stopped ∧
    ∀ freshId : Nat, (getSession (stopImpl s) freshId).2 = freshId ∧
      (getSession (stopImpl s) freshId).1.sessionPromise = some freshId :=
  c6_stop_while_loading _ (by decide)

/-- The coordinator operations that run during a session's lifetime and
across reconnects (the ones that could touch the Filtered-Text Set). -/
inductive HelperOp where
  | filteredMsg (text : String)
  | chunkMsg (now duration : Rat)
  | promptsMsg (prompts : List (String × Prompt)) (outcome : SendOutcome)
  | pauseOp
  | stopOp
  | connectOp (newId : Nat)
deriving DecidableEq, Repr

/-- Dispatch of one coordinator operation to its implementation. -/
def applyOp (s : HelperState) : HelperOp → HelperState
  | .filteredMsg t => onFilteredPromptMsg s t
  | .chunkMsg now d => (processAudioChunks s now d).state
  | .promptsMsg np o => setWeightedPromptsImpl s np o
  | .pauseOp => pauseImpl s
  | .stopOp => stopImpl s
  | .connectOp newId => connectImpl s newId

theorem processAudioChunks_filtered (s : HelperState) (now d : Rat) :
    (processAudioChunks s now d).state.filteredPrompts = s.filteredPrompts := by
  by_cases h1 : s.playbackState = .paused ∨ s.playbackState = .stopped
  · simp [processAudioChunks, h1]
  · by_cases h2 : s.nextStartTime = 0
    · by_cases h3 : now + s.bufferTime < now <;>
        simp [processAudioChunks, setPlaybackState, h1, h2, h3]
    · by_cases h3 : s.nextStartTime < now <;>
        simp [processAudioChunks, setPlaybackState, h1, h2, h3]

theorem setWeightedPromptsImpl_filtered (s : HelperState)
    (np : List (String × Prompt)) (o : SendOutcome) :
    (setWeightedPromptsImpl s np o).filteredPrompts = s.filteredPrompts := by
  unfold setWeightedPromptsImpl pauseImpl dispatchError setPlaybackState
  dsimp only
  split
  · rfl
  · split
    · rfl
    · cases o <;> rfl

/-- Counterexample to C5 as stated: a prompt text filtered during one
session is still in the Filtered-Text Set after `stop()` discards that
session and `connect()` replaces it with a new session object (id 7) —
the new session does not start with an empty set. -/
theorem c5_counterexample :
    (connectImpl (stopImpl
        (onFilteredPromptMsg initialHelperState "Drum and Bass")) 7).sessionPromise
      = some 7 ∧
    (connectImpl (stopImpl
        (onFilteredPromptMsg initialHelperState "Drum and Bass")) 7).filteredPrompts
      = ["Drum and Bass"] := by
  constructor <;> rfl

/-- C5 (amended): the Filtered-Text Set only grows (filtered-prompt
notices add entries, no coordinator operation removes one), but it is not
cleared on reconnect: `stop()` and `connect()` leave it untouched, so it
persists until a new coordinator instance (whose constructor starts with
an empty set) replaces this one. -/
theorem c5_filtered_set_monotone (s : HelperState) (op : HelperOp)
    (newId : Nat) :
    s.filteredPrompts.Sublist (applyOp s op).filteredPrompts ∧
    (connectImpl s newId).filteredPrompts = s.filteredPrompts ∧
    (stopImpl s).filteredPrompts = s.filteredPrompts ∧
    initialHelperState.filteredPrompts = [] := by
  refine ⟨?_, rfl, rfl, rfl⟩
  cases op with
  | filteredMsg t =>
    show s.filteredPrompts.Sublist (setAdd s.filteredPrompts t)
    unfold setAdd
    split
    · exact List.Sublist.refl _
    · exact List.sublist_append_left _ _
  | chunkMsg now d =>
    rw [show (applyOp s (.chunkMsg now d)).filteredPrompts
        = s.filteredPrompts from processAudioChunks_filtered s now d]
  | promptsMsg np o =>
    rw [show (applyOp s (.promptsMsg np o)).filteredPrompts
        = s.filteredPrompts from setWeightedPromptsImpl_filtered s np o]
  | pauseOp => exact List.Sublist.refl _
  | stopOp => exact List.Sublist.refl _
  | connectOp newId2 => exact List.Sublist.refl _

/-! ### `MidiDispatcher.js` -/

/-- The normalised Control-Change payload dispatched as `cc-message`:
`{cc: data[1], value: data[2], channel: statusByte & 0x0f}`. -/
structure CCMessage where
  cc : Nat
  value : Nat
  channel : Nat
deriving DecidableEq, Repr

/-- The `onmidimessage` handler that `getMidiAccess` installs on every
input: return unless the message's input is the active device
(`input.id !== this.activeMidiInputId`; `activeId = none` models a `null`
active id, which never strictly equals a device id), return when the
event has no `data`, read the status byte and dispatch a `cc-message`
only when `statusByte & 0xf0 == 0xb0`.  Reads beyond the end of the
`data` array are JS `undefined`, which the bitwise coercion turns into 0:
modelled by `List.getD _ _ 0`. -/
def onMidiMessage (activeId : Option String) (inputId : String)
    (data : Option (List Nat)) : Option CCMessage :=
  if some inputId ≠ activeId then none
  else match data with
    | none => none
    | some bytes =>
      let statusByte := bytes.getD 0 0
      let channel := statusByte &&& 0x0f
      let messageType := statusByte &&& 0xf0
      if messageType = 0xb0 then
        some ⟨bytes.getD 1 0, bytes.getD 2 0, channel⟩
      else none

theorem land_f0_eq_b0_iff : ∀ b, b < 256 →
    ((b &&& 0xf0 = 0xb0) ↔ (0xb0 ≤ b ∧ b ≤ 0xbf)) := by
  set_option maxRecDepth 10000 in decide

theorem land_0f_eq_mod : ∀ b, b < 256 → b &&& 0x0f = b % 16 := by
  set_option maxRecDepth 10000 in decide

/-- C7: a `cc-message` is emitted iff the message comes from the active
input device and its status byte (a MIDI byte, < 256) lies in the
Control-Change range 0xB0–0xBF; the emitted payload carries the status
byte's low nibble as channel, the second data byte as cc and the third as
value.  Messages from non-active devices, other status bytes, and
messages without data emit nothing. -/
theorem c7_midi_cc_filter (activeId : Option String) (inputId : String)
    (bytes : List Nat) (hb : bytes.getD 0 0 < 256) :
    ((onMidiMessage activeId inputId (some bytes)).isSome ↔
      (activeId = some inputId ∧
        0xb0 ≤ bytes.getD 0 0 ∧ bytes.getD 0 0 ≤ 0xbf)) ∧
    (∀ e, onMidiMessage activeId inputId (some bytes) = some e →
      e.channel = bytes.getD 0 0 % 16 ∧
      e.cc = bytes.getD 1 0 ∧ e.value = bytes.getD 2 0) ∧
    onMidiMessage activeId inputId none = none := by
  by_cases ha : some inputId = activeId
  · subst ha
    by_cases hcc : bytes.getD 0 0 &&& 0xf0 = 0xb0
    · have hm : onMidiMessage (some inputId) inputId (some bytes)
          = some ⟨bytes.getD 1 0, bytes.getD 2 0, bytes.getD 0 0 &&& 0x0f⟩ := by
        unfold onMidiMessage
        rw [if_neg (by simp)]
        exact if_pos hcc
      refine ⟨?_, ?_, by simp [onMidiMessage]⟩
      · rw [hm]
        simp only [Option.isSome_some, true_iff]
        exact ⟨trivial, (land_f0_eq_b0_iff _ hb).mp hcc⟩
      · intro e he
        rw [hm] at he
        injection he with he
        subst he
        exact ⟨land_0f_eq_mod _ hb, rfl, rfl⟩
    · have hm : onMidiMessage (some inputId) inputId (some bytes) = none := by
        unfold onMidiMessage
        rw [if_neg (by simp)]
        exact if_neg hcc
      refine ⟨?_, ?_, by simp [onMidiMessage]⟩
      · rw [hm]
        simp only [Option.isSome_none, Bool.false_eq_true, false_iff]
        intro hcon
        exact hcc ((land_f0_eq_b0_iff _ hb).mpr hcon.2)
      · intro e he
        rw [hm] at he
        exact Option.noConfusion he
  · have hm : onMidiMessage activeId inputId (some bytes) = none := by
      unfold onMidiMessage
      exact if_pos ha
    have hm2 : onMidiMessage activeId inputId none = none := by
      unfold onMidiMessage
      split <;> rfl
    refine ⟨?_, ?_, hm2⟩
    · rw [hm]
      simp only [Option.isSome_none, Bool.false_eq_true, false_iff]
      intro hcon
      exact ha hcon.1.symm
    · intro e he
      rw [hm] at he
      exact Option.noConfusion he

/-- Witness for C7: active device "input-0" receiving CC message
`[0xb3, 7, 100]` on itself. -/
theorem c7_midi_cc_filter_witness :
    ((onMidiMessage (some "input-0") "input-0" (some [0xb3, 7, 100])).isSome ↔
      (some "input-0" = some "input-0" ∧
        0xb0 ≤ [0xb3, 7, 100].getD 0 0 ∧ [0xb3, 7, 100].getD 0 0 ≤ 0xbf)) ∧
    (∀ e, onMidiMessage (some "input-0") "input-0" (some [0xb3, 7, 100]) = some e →
      e.channel = [0xb3, 7, 100].getD 0 0 % 16 ∧
      e.cc = [0xb3, 7, 100].getD 1 0 ∧ e.value = [0xb3, 7, 100].getD 2 0) ∧
    onMidiMessage (some "input-0") "input-0" none = none :=
  c7_midi_cc_filter (some "input-0") "input-0" [0xb3, 7, 100] (by decide)

/-! ### Prompt-set save/load (`PromptDjMidi.handleSaveSet` / `handleLoadSet`) -/

/-- JS `Map.prototype.set`: replace the value in place when the key is
already present (keeping insertion order), append otherwise. -/
def mapSet (m : List (String × Prompt)) (k : String) (v : Prompt) :
    List (String × Prompt) :=
  if m.any (fun q => q.1 = k) then
    m.map (fun q => if q.1 = k then (k, v) else q)
  else m ++ [(k, v)]

/-- `handleSaveSet`'s payload: `Array.from(this.prompts.values())`.  The
`JSON.stringify`/`JSON.parse` round trip is the identity on this plain
record data, so the serialised file is modelled by the value list
itself. -/
def saveSet (m : List (String × Prompt)) : List Prompt :=
  m.map Prod.snd

/-- One entry failing `handleLoadSet`'s validation
`loadedPrompts.some(p => !p.promptId || !p.text)` (a missing field parses
to a falsy value, modelled by the empty string). -/
def invalidEntry (p : Prompt) : Bool :=
  p.promptId == "" || p.text == ""

/-- `handleLoadSet` after a successful file read and JSON parse of the
array `arr`: any entry with missing `promptId` or `text` rejects the whole
set (the prior map stays, an error is dispatched); otherwise a fresh map
keyed by each entry's `promptId` replaces the prior one. -/
def handleLoadSet (m : List (String × Prompt)) (arr : List Prompt) :
    List (String × Prompt) :=
  if arr.any invalidEntry then m
  else arr.foldl (fun acc p => mapSet acc p.promptId p) []

/-- Rebuilding a well-formed prompt map (keys distinct and equal to each
value's `promptId`) from its value list by repeated `Map.set` appends the
entries in order. -/
theorem foldl_mapSet_eq_append (m : List (String × Prompt)) :
    ∀ acc : List (String × Prompt),
    (∀ q ∈ m, q.2.promptId = q.1) →
    (m.map Prod.fst).Nodup →
    (∀ q ∈ m, ∀ r ∈ acc, r.1 ≠ q.1) →
    (saveSet m).foldl (fun acc p => mapSet acc p.promptId p) acc = acc ++ m := by
  induction m with
  | nil => intro acc _ _ _; simp [saveSet]
  | cons q rest ih =>
    intro acc hid hnd hdisj
    rw [List.map_cons] at hnd
    have hnd2 := List.nodup_cons.mp hnd
    simp only [saveSet, List.map_cons, List.foldl_cons]
    have hq : q.2.promptId = q.1 := hid q (List.mem_cons_self q rest)
    have hstep : mapSet acc q.2.promptId q.2 = acc ++ [q] := by
      rw [hq]
      unfold mapSet
      rw [if_neg (by
        simp only [List.any_eq_true, not_exists]
        intro r hr
        exact hdisj q (List.mem_cons_self q rest) r hr.1
          (of_decide_eq_true hr.2))]
    rw [hstep]
    have hrest := ih (acc ++ [q])
      (fun p hp => hid p (List.mem_cons_of_mem q hp))
      hnd2.2
      (by
        intro p hp r hr
        rcases List.mem_append.mp hr with hr | hr
        · exact hdisj p (List.mem_cons_of_mem q hp) r hr
        · have hrq : r = q := by simpa using hr
          rw [hrq]
          intro hEq
          exact hnd2.1 (by rw [hEq]; exact List.mem_map_of_mem Prod.fst hp))
    show (saveSet rest).foldl (fun acc p => mapSet acc p.promptId p) (acc ++ [q])
        = acc ++ q :: rest
    rw [hrest]
    simp

/-- C8: for a prompt map whose entries all carry non-empty `promptId` and
`text` (and the `Map` invariant: keys distinct, each key equal to its
value's `promptId`), exporting with `handleSaveSet` and re-importing with
`handleLoadSet` rebuilds the identical mapping, whatever map was loaded
before; and an import array containing any entry with missing `promptId`
or `text` is rejected as a whole, leaving the prior mapping unchanged. -/
theorem c8_save_load_roundtrip (m mPrior : List (String × Prompt))
    (hid : ∀ q ∈ m, q.2.promptId = q.1)
    (hnd : (m.map Prod.fst).Nodup)
    (hvalid : ∀ q ∈ m, q.2.promptId ≠ "" ∧ q.2.text ≠ "") :
    handleLoadSet mPrior (saveSet m) = m ∧
    (∀ (arr : List Prompt) (mp : List (String × Prompt)),
      arr.any invalidEntry = true → handleLoadSet mp arr = mp) := by
  constructor
  · unfold handleLoadSet
    rw [if_neg (by
      simp only [List.any_eq_true, not_exists]
      intro p hp
      obtain ⟨hpm, hbad⟩ := hp
      obtain ⟨q, hq, rfl⟩ := List.mem_map.mp hpm
      obtain ⟨h1, h2⟩ := hvalid q hq
      simp [invalidEntry, h1, h2] at hbad)]
    simpa using foldl_mapSet_eq_append m [] hid hnd (by simp)
  · intro arr mp h
    unfold handleLoadSet
    rw [if_pos h]

/-- Witness for C8: the two-prompt map of `prompt-0 ↦ Bossa Nova` and
`prompt-1 ↦ Chillwave` round-trips; the array with an empty `promptId` is
rejected. -/
theorem c8_save_load_roundtrip_witness :
    let p0 : Prompt := ⟨"prompt-0", "Bossa Nova", 1, 0, "#9900ff"⟩
    let p1 : Prompt := ⟨"prompt-1", "Chillwave", 0, 1, "#5200ff"⟩
    let m := [("prompt-0", p0), ("prompt-1", p1)]
    handleLoadSet [] (saveSet m) = m ∧
    (∀ (arr : List Prompt) (mp : List (String × Prompt)),
      arr.any invalidEntry = true → handleLoadSet mp arr = mp) :=
  c8_save_load_roundtrip _ [] (by decide) (by decide) (by decide)

end LyriaPro
